import Mathlib

/-!
Verification of the message normalization and conversion layer of
src/utils/agents/adapters.py (provider adapters for OpenAI-compatible,
Anthropic and Gemini completion APIs).

Pure fragments of the Python code are embedded as Lean functions; the one
vendor network call per adapter is modelled as an explicit function
parameter, so each `complete` method splits into a pure request-preparation
phase (which may fail with a validation error before the vendor call), the
vendor call itself, and a pure response-extraction phase.

The helpers of src/utils/agents/messages.py (normalize_messages,
to_antrophic, to_gemini_messages) are imported by adapters.py but their file
is not part of the sources; those are modelled from the spec and marked as
such in their doc comments.
-/

namespace Adapters

/-- Message roles. The Python code reads `m.get('role')`, which may be any
string (or absent); `other s` stands for an unrecognized role and a missing
role is `other ""`. -/
inductive Role where
  | system
  | user
  | assistant
  | other (s : String)
deriving DecidableEq, Repr

/-- One unit of a turn content (spec section 3): a text block or some other
media variant, identified by a kind tag. -/
inductive ContentBlock where
  | text (value : String)
  | media (kind : String)
deriving DecidableEq, Repr

/-- Turn content: a plain string or an ordered sequence of content blocks. -/
inductive Content where
  | str (s : String)
  | blocks (bs : List ContentBlock)
deriving DecidableEq, Repr

/-- An OpenAI-style raw message as the adapters receive it. -/
structure Msg where
  role : Role
  content : Content
deriving DecidableEq, Repr

/-- An Anthropic wire content block, a dict of shape {type, text}. -/
structure ABlock where
  type : String
  text : String
deriving DecidableEq, Repr

/-- Modelled from the spec: `to_antrophic` lives in
src/utils/agents/messages.py, which is not part of the sources; only its
caller AnthropicAdapter._split is. Per spec sections 3 and 4.2, it converts
one turn content into Anthropic content blocks: a plain string becomes one
text block, a Text block becomes a text block, and an unrecognized media
variant degrades to an empty-text placeholder rather than failing. An empty
block list converts to an empty list. -/
def to_antrophic (m : Msg) : List ABlock :=
  match m.content with
  | Content.str s => [⟨"text", s⟩]
  | Content.blocks bs =>
      bs.map fun b =>
        match b with
        | ContentBlock.text v => ⟨"text", v⟩
        | ContentBlock.media _ => ⟨"text", ""⟩

/-- Python `blocks or [{'type': 'text', 'text': ''}]`: an empty (falsy) list
is replaced by a single empty-text block. -/
def orEmptyText (blocks : List ABlock) : List ABlock :=
  if blocks = [] then [⟨"text", ""⟩] else blocks

/-- One entry of the Anthropic history: {role, content}. -/
structure HistEntry where
  role : String
  content : List ABlock
deriving DecidableEq, Repr

/-- The history entry built for one non-system message in
AnthropicAdapter._split (adapters.py lines 119-124):
role is the string user when the message role is user, else assistant,
and content is the block conversion with the empty-list fallback. -/
def entryOf (m : Msg) : HistEntry :=
  { role := if m.role = Role.user then "user" else "assistant"
    content := orEmptyText (to_antrophic m) }

/-- Loop body of AnthropicAdapter._split: the mutable `system` and
`history` variables threaded through the `for m in messages` loop. -/
def splitAux (sys : Option (List ABlock)) (hist : List HistEntry) :
    List Msg → Option (List ABlock) × List HistEntry
  | [] => (sys, hist)
  | m :: rest =>
      if m.role = Role.system then
        splitAux (some (orEmptyText (to_antrophic m))) hist rest
      else
        splitAux sys (hist ++ [entryOf m]) rest

/-- AnthropicAdapter._split (adapters.py lines 110-125): start from
system = None and history = [] and run the loop over the raw messages. -/
def split (messages : List Msg) : Option (List ABlock) × List HistEntry :=
  splitAux none [] messages

/-- Decidable test for a system-role message. -/
def isSystem (m : Msg) : Bool := m.role = Role.system

/-- An Anthropic response content block (resp.content elements). -/
structure RBlock where
  type : String
  text : String
deriving DecidableEq, Repr

/-- AnthropicAdapter.complete response extraction (adapters.py lines
143-145): the join with empty separator of the text of the content blocks
whose type is the string text. -/
def anthropicExtract (content : List RBlock) : String :=
  String.join ((content.filter (fun c => c.type = "text")).map RBlock.text)

/-- Spec-side restatement of the Anthropic extraction (spec section 4.4
step 4): walk the blocks in order, a text-typed block contributes its text
and any other block contributes nothing, with no separator. -/
def concatTextBlocks : List RBlock → String
  | [] => ""
  | c :: cs => (if c.type = "text" then c.text else "") ++ concatTextBlocks cs

/-- A Gemini response part: may carry a text attribute. -/
structure GRPart where
  text : Option String
deriving DecidableEq, Repr

/-- A Gemini response candidate content: may carry a parts attribute. -/
structure GRContent where
  parts : Option (List GRPart)
deriving DecidableEq, Repr

/-- A Gemini response candidate: may carry a content attribute. -/
structure GRCandidate where
  content : Option GRContent
deriving DecidableEq, Repr

/-- A Gemini response: an optional top-level text convenience field and an
optional list of candidates. -/
structure GResp where
  text : Option String
  candidates : Option (List GRCandidate)
deriving DecidableEq, Repr

/-- Python truthiness of an optional string: None and the empty string are
falsy. -/
def truthyStr : Option String → Bool
  | none => false
  | some s => !(s == "")

/-- Python `getattr(content, 'parts', []) or []` with content possibly
None (adapters.py line 191). -/
def partsOf (c : Option GRContent) : List GRPart :=
  match c with
  | none => []
  | some cc => cc.parts.getD []

/-- The fallback text-collection loop of GoogleGeminiAdapter.complete
(adapters.py lines 188-194): for each candidate, for each part, append the
part text to the accumulator when it is truthy. -/
def collectTexts (resp : GResp) : List String :=
  (resp.candidates.getD []).foldl
    (fun texts cand =>
      (partsOf cand.content).foldl
        (fun ts p =>
          match p.text with
          | some t => if t == "" then ts else ts ++ [t]
          | none => ts)
        texts)
    []

/-- Spec-side restatement of the fallback collection (spec section 4.4
step 4): all text-bearing parts across all candidates, in order. -/
def specTexts (resp : GResp) : List String :=
  (resp.candidates.getD []).flatMap fun cand =>
    (partsOf cand.content).filterMap fun p =>
      match p.text with
      | some t => if t == "" then none else some t
      | none => none

/-- GoogleGeminiAdapter.complete response extraction (adapters.py lines
185-195): return the top-level text field when truthy, else the
newline-join of the collected part texts. -/
def geminiExtract (resp : GResp) : String :=
  if truthyStr resp.text then resp.text.getD ""
  else String.intercalate "\n" (collectTexts resp)

/-- Gemini construction errors (adapters.py lines 153-161): the missing
dependency ImportError and the missing credential ValueError. -/
inductive GeminiInitError where
  | missingDependency (msg : String)
  | missingCredential (msg : String)
deriving DecidableEq, Repr

/-- GoogleGeminiAdapter constructor (adapters.py lines 153-163): the
conditional import of google-genai is modelled by the genaiAvailable flag
(genai and genai_types are None exactly when the import failed); the
dependency check precedes the credential check, and `if not api_key` is
Python falsiness of a string. -/
def geminiInit (genaiAvailable : Bool) (apiKey : String) :
    Except GeminiInitError Unit :=
  if !genaiAvailable then
    Except.error (GeminiInitError.missingDependency
      "google-genai is not installed. Run `uv pip install google-genai`.")
  else if apiKey == "" then
    Except.error (GeminiInitError.missingCredential
      "Missing Gemini API key. Set GEMINI_API_KEY or pass api_key explicitly.")
  else Except.ok ()

/-- A turn as handled by the normalizer: a role and plain text content.
The normalizer model treats content as text (the spec merge rule
concatenates contents with a newline join). -/
structure NTurn where
  role : Role
  content : String
deriving DecidableEq, Repr

/-- A recognized normalizer role (spec section 4.1: unrecognized roles are
rejected). -/
def recognized (t : NTurn) : Bool :=
  match t.role with
  | Role.system => true
  | Role.user => true
  | Role.assistant => true
  | Role.other _ => false

/-- Decidable test for a system-role turn. -/
def isSysTurn (t : NTurn) : Bool := t.role = Role.system

/-- Decidable test for a user-role turn. -/
def isUserTurn (t : NTurn) : Bool := t.role = Role.user

/-- The concatenation, in original order, of the contents of a list of
turns, with the newline join of the spec scenario. -/
def sysJoin (ts : List NTurn) : String :=
  String.intercalate "\n" (ts.map NTurn.content)

/-- Prepend a string to the content of the first user turn of the list,
leaving every other turn unchanged. -/
def prependToFirstUser (pre : String) : List NTurn → List NTurn
  | [] => []
  | t :: ts =>
      if t.role = Role.user then
        { role := Role.user, content := pre ++ "\n" ++ t.content } :: ts
      else t :: prependToFirstUser pre ts

/-- Merge aggregated system content into the turn list: prepend it to the
next following user turn, or to a newly synthesized leading user turn when
no user turn exists (spec section 4.1). -/
def mergeSystemContent (pre : String) (ts : List NTurn) : List NTurn :=
  if ts.any isUserTurn then prependToFirstUser pre ts
  else { role := Role.user, content := pre } :: ts

/-- Modelled from the spec: `normalize_messages` lives in
src/utils/agents/messages.py, which is not part of the sources; only its
callers are. Per spec section 4.1: unrecognized roles are rejected
(filtered out); with allowSystem, system turns pass through; otherwise
system turns are dropped entirely unless mergeSystemIntoUser, in which case
the content of all system turns is concatenated in original order and
prepended to the next following user turn (or to a newly synthesized
leading user turn when none follows), and with keepSystem a single system
turn holding the aggregate is retained in addition. The newline join
follows the spec scenario (system "Be terse." plus user "Hi" merge to
"Be terse.\nHi"). -/
def normalize_messages (msgs : List NTurn)
    (allowSystem mergeSystemIntoUser keepSystem : Bool) : List NTurn :=
  let ts := msgs.filter recognized
  if allowSystem then ts
  else
    let sys := ts.filter isSysTurn
    let rest := ts.filter (fun t => !isSysTurn t)
    if mergeSystemIntoUser then
      if sys.isEmpty then rest
      else
        let merged := mergeSystemContent (sysJoin sys) rest
        if keepSystem then
          { role := Role.system, content := sysJoin sys } :: merged
        else merged
    else rest

/-- Modelled from the spec: the Gemini wire part {text}. -/
structure GPart where
  text : String
deriving DecidableEq, Repr

/-- Modelled from the spec: one Gemini contents entry {role, parts}. -/
structure GContent where
  role : String
  parts : List GPart
deriving DecidableEq, Repr

/-- Modelled from the spec: the text parts contributed by one turn content
(spec section 4.3): only text-bearing blocks contribute a {text} part and
non-text blocks are dropped at this layer; a plain string contributes one
text part. -/
def geminiParts (c : Content) : List GPart :=
  match c with
  | Content.str s => [⟨s⟩]
  | Content.blocks bs =>
      bs.filterMap fun b =>
        match b with
        | ContentBlock.text v => some ⟨v⟩
        | ContentBlock.media _ => none

/-- Modelled from the spec: the plain text of one turn content, used for
the system instruction string. -/
def contentText (c : Content) : String :=
  match c with
  | Content.str s => s
  | Content.blocks bs =>
      String.intercalate "\n" ((geminiParts (Content.blocks bs)).map GPart.text)

/-- Modelled from the spec: `to_gemini_messages` lives in
src/utils/agents/messages.py, which is not part of the sources; only its
caller GoogleGeminiAdapter.complete is. Per spec section 4.3: the system
turns are extracted as a plain instruction string rather than included in
contents; assistant maps to the vendor role model and user to user; each
remaining turn contributes its text parts, and a turn whose parts come out
empty is filtered away, so contents can be empty. -/
def to_gemini_messages (msgs : List Msg) : Option String × List GContent :=
  let sys := msgs.filter isSystem
  let instruction :=
    if sys.isEmpty then none
    else some (String.intercalate "\n" (sys.map (fun m => contentText m.content)))
  let contents :=
    (msgs.filter (fun m => !isSystem m)).filterMap fun m =>
      let ps := geminiParts m.content
      if ps.isEmpty then none
      else some { role := if m.role = Role.assistant then "model" else "user"
                  parts := ps }
  (instruction, contents)

/-- A value stored in a Python params dict. Caller-supplied extra options
carry an opaque tag. -/
inductive Value where
  | str (s : String)
  | nat (n : Nat)
  | vmsgs (ms : List NTurn)
  | vsys (b : Option (List ABlock))
  | vhist (h : List HistEntry)
  | vcontents (cs : List GContent)
  | vinstr (s : Option String)
  | raw (tag : String)
deriving DecidableEq, Repr

/-- A Python dict of keyword parameters, as an ordered key-value list. -/
abbrev Params := List (String × Value)

/-- Python `d[k] = v`: replace the value at an existing key, else append
the new pair. -/
def dictSet (d : Params) (k : String) (v : Value) : Params :=
  if d.any (fun p => p.1 = k) then
    d.map (fun p => if p.1 = k then (k, v) else p)
  else d ++ [(k, v)]

/-- Python `d.update(kw)`: set every pair of kw into d, in order. -/
def dictUpdate (d kw : Params) : Params :=
  kw.foldl (fun acc p => dictSet acc p.1 p.2) d

/-- Lookup of a key in a params dict. -/
def dictGet (d : Params) (k : String) : Option Value :=
  (d.find? (fun p => p.1 = k)).map Prod.snd

/-- Validation errors raised by complete before the vendor call: the
ValueError of the emptiness checks and the TypeError of a duplicate
keyword argument. -/
inductive AdapterError where
  | emptyConversation (msg : String)
  | typeError (msg : String)
deriving DecidableEq, Repr

/-- The base params dict of OpenAIAdapter.complete and
LocalAdapter.complete (adapters.py lines 49-53 and 90-94) before the
kwargs update. -/
def openaiBase (model : String) (norm : List NTurn) (maxTok : Nat) : Params :=
  [("model", Value.str model),
   ("messages", Value.vmsgs norm),
   ("max_tokens", Value.nat maxTok)]

/-- The params dict sent by the OpenAI-style adapters: the base dict
updated with the caller kwargs (adapters.py line 54 and line 95). -/
def openaiParams (model : String) (norm : List NTurn) (maxTok : Nat)
    (kw : Params) : Params :=
  dictUpdate (openaiBase model norm maxTok) kw

/-- OpenAIAdapter.complete (adapters.py lines 37-56) up to text
extraction: normalize keeping system, raise ValueError when nothing
remains, else send the merged params. The vendor call is a function
parameter; the first-choice content extraction is folded into it. -/
def openaiComplete (call : Params → String) (model : String)
    (msgs : List NTurn) (maxTok : Nat) (kw : Params) :
    Except AdapterError String :=
  let norm := normalize_messages msgs true false false
  if norm.isEmpty then
    Except.error (AdapterError.emptyConversation
      "After normalization, no valid user/assistant messages remain.")
  else Except.ok (call (openaiParams model norm maxTok kw))

/-- LocalAdapter.complete (adapters.py lines 75-97): normalize with
merge_system_into_user and keep_system set to the allow-system flag of the
instance (allow_system itself takes its default, modelled as false per
spec section 4.4: local backends default to drop-with-merge). -/
def localComplete (call : Params → String) (model : String)
    (allowSystemFlag : Bool) (msgs : List NTurn) (maxTok : Nat)
    (kw : Params) : Except AdapterError String :=
  let norm := normalize_messages msgs false true allowSystemFlag
  if norm.isEmpty then
    Except.error (AdapterError.emptyConversation
      "After normalization, no valid user/assistant messages remain for local model.")
  else Except.ok (call (openaiParams model norm maxTok kw))

/-- The base params dict of AnthropicAdapter.complete (adapters.py lines
134-139): model, the two components of _split applied to the raw caller
messages, and max_tokens. -/
def anthropicBase (model : String) (msgs : List Msg) (maxTok : Nat) : Params :=
  [("model", Value.str model),
   ("system", Value.vsys (split msgs).1),
   ("messages", Value.vhist (split msgs).2),
   ("max_tokens", Value.nat maxTok)]

/-- The params dict sent by AnthropicAdapter.complete (adapters.py lines
133-140): the base dict updated with the caller kwargs. -/
def anthropicParams (model : String) (msgs : List Msg) (maxTok : Nat)
    (kw : Params) : Params :=
  dictUpdate (anthropicBase model msgs maxTok) kw

/-- AnthropicAdapter.complete (adapters.py lines 127-145): split the raw
messages, send, and extract the text blocks. There is no emptiness
validation between _split and the vendor call, so the result is always
the ok case. -/
def anthropicComplete (call : Params → List RBlock) (model : String)
    (msgs : List Msg) (maxTok : Nat) (kw : Params) :
    Except AdapterError String :=
  Except.ok (anthropicExtract (call (anthropicParams model msgs maxTok kw)))

/-- The base fields of genai GenerateContentConfig that complete passes
explicitly (adapters.py lines 175-178). -/
def geminiConfigBase (maxTok : Nat) (si : Option String) : Params :=
  [("max_output_tokens", Value.nat maxTok),
   ("system_instruction", Value.vinstr si)]

/-- GenerateContentConfig(max_output_tokens=..., system_instruction=...,
**kwargs): a kwargs key colliding with an explicitly passed keyword raises
TypeError (multiple values for the keyword argument) in Python; otherwise
the config holds the base fields plus the kwargs. -/
def geminiConfig (maxTok : Nat) (si : Option String) (kw : Params) :
    Except String Params :=
  if kw.any (fun p => p.1 = "max_output_tokens" || p.1 = "system_instruction")
  then Except.error "TypeError: got multiple values for keyword argument"
  else Except.ok (geminiConfigBase maxTok si ++ kw)

/-- The request sent by the Gemini vendor call: model, contents and the
config object (adapters.py lines 180-184). -/
structure GeminiRequest where
  model : String
  contents : List GContent
  config : Params
deriving DecidableEq, Repr

/-- GoogleGeminiAdapter.complete (adapters.py lines 165-184) up to the
vendor call: convert, raise ValueError when contents is empty, build the
config (which can raise TypeError on a duplicate keyword), and return the
request to send. -/
def geminiPrepare (model : String) (msgs : List Msg) (maxTok : Nat)
    (kw : Params) : Except AdapterError GeminiRequest :=
  let sc := to_gemini_messages msgs
  if sc.2.isEmpty then
    Except.error (AdapterError.emptyConversation
      "After normalization, no valid messages remain for Gemini.")
  else
    match geminiConfig maxTok sc.1 kw with
    | Except.error e => Except.error (AdapterError.typeError e)
    | Except.ok config => Except.ok ⟨model, sc.2, config⟩

/-- GoogleGeminiAdapter.complete in full (adapters.py lines 165-195): the
prepared request goes to the vendor call and the response through the
extraction. -/
def geminiComplete (call : GeminiRequest → GResp) (model : String)
    (msgs : List Msg) (maxTok : Nat) (kw : Params) :
    Except AdapterError String :=
  (geminiPrepare model msgs maxTok kw).map (fun req => geminiExtract (call req))

theorem splitAux_snd (msgs : List Msg) :
    ∀ sys hist, (splitAux sys hist msgs).2 =
      hist ++ (msgs.filter (fun m => !isSystem m)).map entryOf := by
  induction msgs with
  | nil => intro sys hist; simp [splitAux]
  | cons m rest ih =>
      intro sys hist
      by_cases h : m.role = Role.system
      · simp [splitAux, h, List.filter, isSystem, ih]
      · simp [splitAux, h, List.filter, isSystem, ih]

theorem splitAux_fst (msgs : List Msg) :
    ∀ sys hist, (splitAux sys hist msgs).1 =
      ((((msgs.filter isSystem).map
          (fun m => orEmptyText (to_antrophic m))).getLast?).or sys) := by
  induction msgs with
  | nil => intro sys hist; simp [splitAux]
  | cons m rest ih =>
      intro sys hist
      by_cases h : m.role = Role.system
      · have hf : (m :: rest).filter isSystem = m :: rest.filter isSystem := by
          simp [isSystem, h]
        rw [splitAux, if_pos h, ih, hf]
        simp only [List.map_cons, List.getLast?_cons]
        cases hrest : ((rest.filter isSystem).map
            (fun m => orEmptyText (to_antrophic m))).getLast? <;>
          simp [hrest, Option.or]
      · simp [splitAux, h, List.filter, isSystem, ih]

/-- The history component of _split is the non-system messages, in order,
each converted by entryOf. -/
theorem split_snd (msgs : List Msg) :
    (split msgs).2 = (msgs.filter (fun m => !isSystem m)).map entryOf := by
  simpa using splitAux_snd msgs none []

/-- The system component of _split is the block conversion of the last
system-role message, or none when no system message exists. -/
theorem split_fst (msgs : List Msg) :
    (split msgs).1 =
      ((msgs.filter isSystem).getLast?).map
        (fun m => orEmptyText (to_antrophic m)) := by
  have h := splitAux_fst msgs none []
  rw [split, h]
  rw [List.getLast?_map]
  cases hlast : (msgs.filter isSystem).getLast? <;> simp [hlast, Option.or]

/-- C1 counterexample: a turn with the unknown role tool is neither system
nor assistant, yet its history entry gets role assistant, not user, because
adapters.py line 121 coerces every non-user role to assistant. -/
theorem anthropic_role_coercion_cex :
    (split [⟨Role.other "tool", Content.str "x"⟩]).2.map HistEntry.role
      = ["assistant"] ∧ ("assistant" : String) ≠ "user" := by
  constructor
  · rfl
  · decide

/-- C1 (amended): in AnthropicAdapter._split, every non-system turn yields
a history entry whose role is the string user exactly when the turn role is
user, and the string assistant for every other role; unknown or ambiguous
roles are coerced to assistant, never to user or system. -/
theorem anthropic_role_coercion (msgs : List Msg) :
    (split msgs).2 = (msgs.filter (fun m => !isSystem m)).map entryOf
    ∧ ∀ m : Msg, (entryOf m).role =
        if m.role = Role.user then "user" else "assistant" := by
  exact ⟨split_snd msgs, fun m => rfl⟩

/-- C5: the history of _split has exactly one entry per non-system input
turn, in input order; an entry content is the single empty-text block when
the block conversion of its turn is empty, else that conversion; and the
system aggregation is none exactly when no system turn existed. -/
theorem anthropic_split_invariants (msgs : List Msg) :
    (split msgs).2 = (msgs.filter (fun m => !isSystem m)).map entryOf
    ∧ (split msgs).2.length = (msgs.filter (fun m => !isSystem m)).length
    ∧ (∀ m : Msg, (entryOf m).content =
        if to_antrophic m = [] then [⟨"text", ""⟩] else to_antrophic m)
    ∧ ((split msgs).1 = none ↔ msgs.filter isSystem = []) := by
  refine ⟨split_snd msgs, ?_, fun m => rfl, ?_⟩
  · rw [split_snd msgs, List.length_map]
  · rw [split_fst msgs]
    rw [Option.map_eq_none']
    exact List.getLast?_eq_none_iff

/-- C10: AnthropicAdapter.complete hands the raw caller messages to _split
with no normalization in between, so the system entry of the params it
sends is the _split aggregation of the raw input; that aggregation is the
block conversion of the last system turn alone, every earlier system turn
being overwritten, hence silently discarded. -/
theorem anthropic_last_system_wins (model : String) (msgs : List Msg)
    (maxTok : Nat) :
    (split msgs).1 =
      ((msgs.filter isSystem).getLast?).map
        (fun m => orEmptyText (to_antrophic m))
    ∧ dictGet (anthropicParams model msgs maxTok []) "system"
        = some (Value.vsys (split msgs).1)
    ∧ (split [⟨Role.system, Content.str "first"⟩,
              ⟨Role.system, Content.str "second"⟩]).1
        = some [⟨"text", "second"⟩] := by
  refine ⟨split_fst msgs, ?_, rfl⟩
  rfl

theorem join_cons (s : String) (l : List String) :
    String.join (s :: l) = s ++ String.join l := by
  have key : ∀ (t : List String) (a : String),
      t.foldl (fun r x => r ++ x) a = a ++ t.foldl (fun r x => r ++ x) "" := by
    intro t
    induction t with
    | nil => intro a; simp
    | cons b t ih =>
        intro a
        rw [List.foldl_cons, List.foldl_cons, ih (a ++ b), ih ("" ++ b)]
        simp [String.append_assoc]
  show (s :: l).foldl (fun r x => r ++ x) "" = s ++ l.foldl (fun r x => r ++ x) ""
  rw [List.foldl_cons, key l ("" ++ s)]
  simp

theorem anthropicExtract_eq_concat (cs : List RBlock) :
    anthropicExtract cs = concatTextBlocks cs := by
  induction cs with
  | nil => rfl
  | cons c rest ih =>
      by_cases h : c.type = "text"
      · have hf : (c :: rest).filter (fun b => b.type = "text")
            = c :: rest.filter (fun b => b.type = "text") := by simp [h]
        rw [anthropicExtract, hf, List.map_cons, join_cons, concatTextBlocks,
          if_pos h]
        rw [anthropicExtract] at ih
        rw [ih]
      · have hf : (c :: rest).filter (fun b => b.type = "text")
            = rest.filter (fun b => b.type = "text") := by simp [h]
        rw [anthropicExtract, hf, concatTextBlocks, if_neg h]
        rw [anthropicExtract] at ih
        rw [ih]
        simp

/-- C3: AnthropicAdapter.complete returns exactly the concatenation, in
response order and with no separator, of the text of all content blocks
whose type is the string text; blocks of any other type contribute
nothing. The spec-side recursion concatTextBlocks is exactly that reading,
and complete returns it applied to the vendor response. -/
theorem anthropic_text_extraction (call : Params → List RBlock)
    (model : String) (msgs : List Msg) (maxTok : Nat) (kw : Params) :
    anthropicComplete call model msgs maxTok kw
      = Except.ok (concatTextBlocks (call (anthropicParams model msgs maxTok kw)))
    ∧ ∀ cs : List RBlock, anthropicExtract cs = concatTextBlocks cs := by
  constructor
  · rw [anthropicComplete,
      anthropicExtract_eq_concat (call (anthropicParams model msgs maxTok kw))]
  · exact anthropicExtract_eq_concat

theorem innerFold_eq (ps : List GRPart) :
    ∀ acc : List String,
      ps.foldl
        (fun ts p =>
          match p.text with
          | some t => if t == "" then ts else ts ++ [t]
          | none => ts)
        acc
      = acc ++ ps.filterMap
          (fun p =>
            match p.text with
            | some t => if t == "" then none else some t
            | none => none) := by
  induction ps with
  | nil => intro acc; simp
  | cons p ps ih =>
      intro acc
      rw [List.foldl_cons, ih, List.filterMap_cons]
      cases hp : p.text with
      | none => simp
      | some t =>
          by_cases ht : t == ""
          · simp [ht]
          · simp [ht]

theorem collectTexts_eq_specTexts (resp : GResp) :
    collectTexts resp = specTexts resp := by
  rw [collectTexts, specTexts]
  generalize (resp.candidates.getD []) = cands
  have key : ∀ (cs : List GRCandidate) (acc : List String),
      cs.foldl
        (fun texts cand =>
          (partsOf cand.content).foldl
            (fun ts p =>
              match p.text with
              | some t => if t == "" then ts else ts ++ [t]
              | none => ts)
            texts)
        acc
      = acc ++ cs.flatMap
          (fun cand => (partsOf cand.content).filterMap
            (fun p =>
              match p.text with
              | some t => if t == "" then none else some t
              | none => none)) := by
    intro cs
    induction cs with
    | nil => intro acc; simp
    | cons c cs ih =>
        intro acc
        rw [List.foldl_cons, innerFold_eq, ih, List.flatMap_cons,
          List.append_assoc]
  rw [key cands []]
  simp

/-- C4: GoogleGeminiAdapter.complete returns the top-level text field of
the response when that field is present and non-empty; otherwise it
returns all text-bearing parts across all candidates, in order, joined by
newline; in particular a response with no top-level text and parts
[{text:a},{text:b}] yields the two texts joined by a newline. -/
theorem gemini_text_extraction (resp : GResp) :
    (∀ t : String, resp.text = some t → t ≠ "" → geminiExtract resp = t)
    ∧ (truthyStr resp.text = false →
        geminiExtract resp = String.intercalate "\n" (specTexts resp))
    ∧ geminiExtract ⟨none, some [⟨some ⟨some [⟨some "a"⟩, ⟨some "b"⟩]⟩⟩]⟩
        = "a" ++ "\n" ++ "b" := by
  refine ⟨?_, ?_, ?_⟩
  · intro t ht hne
    rw [geminiExtract, ht]
    have : truthyStr (some t) = true := by
      rw [truthyStr]
      simpa using hne
    rw [if_pos this]
    rfl
  · intro h
    rw [geminiExtract, if_neg (by rw [h]; exact Bool.false_ne_true),
      collectTexts_eq_specTexts]
  · rfl

/-- C4 witness: a response whose top-level text is the non-empty string x
extracts to x. -/
theorem gemini_text_extraction_witness :
    geminiExtract ⟨some "x", none⟩ = "x" :=
  (gemini_text_extraction ⟨some "x", none⟩).1 "x" rfl (by decide)

/-- C7: GoogleGeminiAdapter construction succeeds exactly when the
google-genai library is available and the API key is non-empty; an
unavailable library yields the missing-dependency ImportError, an
available library with an empty key yields the missing-credential
ValueError, and the two error constructors are distinct, hence
distinguishable by the caller. -/
theorem gemini_init_errors (avail : Bool) (key : String) :
    (geminiInit avail key = Except.ok () ↔ (avail = true ∧ key ≠ ""))
    ∧ (avail = false → geminiInit avail key = Except.error
        (GeminiInitError.missingDependency
          "google-genai is not installed. Run `uv pip install google-genai`."))
    ∧ (avail = true → key = "" → geminiInit avail key = Except.error
        (GeminiInitError.missingCredential
          "Missing Gemini API key. Set GEMINI_API_KEY or pass api_key explicitly."))
    ∧ (∀ m m' : String,
        GeminiInitError.missingDependency m ≠ GeminiInitError.missingCredential m') := by
  refine ⟨?_, ?_, ?_, fun m m' h => GeminiInitError.noConfusion h⟩
  · cases avail with
    | false => simp [geminiInit]
    | true =>
        by_cases hk : key = ""
        · simp [geminiInit, hk]
        · simp [geminiInit, hk, String.ext_iff]
  · intro h
    rw [h]
    rfl
  · intro ha hk
    rw [ha, hk]
    rfl

/-- C7 witness: with the library available and a non-empty key the
constructor succeeds; an empty key yields the credential error and a
missing library the dependency error. -/
theorem gemini_init_errors_witness :
    geminiInit true "k" = Except.ok ()
    ∧ geminiInit true "" = Except.error
        (GeminiInitError.missingCredential
          "Missing Gemini API key. Set GEMINI_API_KEY or pass api_key explicitly.")
    ∧ geminiInit false "k" = Except.error
        (GeminiInitError.missingDependency
          "google-genai is not installed. Run `uv pip install google-genai`.") :=
  ⟨(gemini_init_errors true "k").1.mpr ⟨rfl, by decide⟩,
   (gemini_init_errors true "").2.2.1 rfl rfl,
   (gemini_init_errors false "k").2.1 rfl⟩

/-- C2 counterexample: AnthropicAdapter.complete performs no emptiness
validation: on an empty caller message list it still reaches the vendor
call and returns its extraction instead of raising a validation error. -/
theorem anthropic_no_empty_validation_cex :
    anthropicComplete (fun _ => []) "claude-4-sonnet-20250514"
      ([] : List Msg) 1 [] = Except.ok "" := by
  rfl

/-- C2 (amended): the OpenAI-compatible, local and Gemini adapters raise a
ValueError before the vendor call when normalization or conversion yields
zero usable turns or contents; the Anthropic adapter performs no such
validation and always proceeds to the vendor call, whatever the input. -/
theorem complete_empty_validation (ocall lcall : Params → String)
    (acall : Params → List RBlock) (gcall : GeminiRequest → GResp)
    (model : String) (aS : Bool) (msgs : List NTurn)
    (amsgs gmsgs : List Msg) (maxTok : Nat) (kw : Params) :
    (normalize_messages msgs true false false = [] →
      openaiComplete ocall model msgs maxTok kw
        = Except.error (AdapterError.emptyConversation
            "After normalization, no valid user/assistant messages remain."))
    ∧ (normalize_messages msgs false true aS = [] →
      localComplete lcall model aS msgs maxTok kw
        = Except.error (AdapterError.emptyConversation
            "After normalization, no valid user/assistant messages remain for local model."))
    ∧ ((to_gemini_messages gmsgs).2 = [] →
      geminiComplete gcall model gmsgs maxTok kw
        = Except.error (AdapterError.emptyConversation
            "After normalization, no valid messages remain for Gemini."))
    ∧ anthropicComplete acall model amsgs maxTok kw
        = Except.ok (anthropicExtract (acall (anthropicParams model amsgs maxTok kw))) := by
  refine ⟨?_, ?_, ?_, rfl⟩
  · intro h
    rw [openaiComplete]
    simp [h]
  · intro h
    rw [localComplete]
    simp [h]
  · intro h
    rw [geminiComplete, geminiPrepare]
    simp [h, Except.map]

/-- C2 witness: on the empty conversation the OpenAI, local and Gemini
adapters raise the emptiness ValueError. -/
theorem complete_empty_validation_witness :
    openaiComplete (fun _ => "r") "gpt-4o" ([] : List NTurn) 1 []
      = Except.error (AdapterError.emptyConversation
          "After normalization, no valid user/assistant messages remain.")
    ∧ localComplete (fun _ => "r") "llama3" false ([] : List NTurn) 1 []
      = Except.error (AdapterError.emptyConversation
          "After normalization, no valid user/assistant messages remain for local model.")
    ∧ geminiComplete (fun _ => ⟨none, none⟩) "gemini-2.5-flash"
        ([] : List Msg) 1 []
      = Except.error (AdapterError.emptyConversation
          "After normalization, no valid messages remain for Gemini.") :=
  ⟨(complete_empty_validation (fun _ => "r") (fun _ => "r") (fun _ => [])
      (fun _ => ⟨none, none⟩) "gpt-4o" false [] [] [] 1 []).1 rfl,
   (complete_empty_validation (fun _ => "r") (fun _ => "r") (fun _ => [])
      (fun _ => ⟨none, none⟩) "llama3" false [] [] [] 1 []).2.1 rfl,
   (complete_empty_validation (fun _ => "r") (fun _ => "r") (fun _ => [])
      (fun _ => ⟨none, none⟩) "gemini-2.5-flash" false [] [] [] 1 []).2.2.1 rfl⟩

theorem dictGet_cons (p : String × Value) (d : Params) (k : String) :
    dictGet (p :: d) k = if p.1 = k then some p.2 else dictGet d k := by
  by_cases h : p.1 = k
  · rw [dictGet, List.find?_cons_of_pos _ (by simpa using h), if_pos h]
    rfl
  · rw [dictGet, List.find?_cons_of_neg _ (by simpa using h), if_neg h]
    rfl

theorem dictGet_eq_none_of_not_mem (k : String) :
    ∀ d : Params, k ∉ d.map Prod.fst → dictGet d k = none := by
  intro d
  induction d with
  | nil => intro _; rfl
  | cons p d ih =>
      intro h
      rw [List.map_cons, List.mem_cons] at h
      push_neg at h
      rw [dictGet_cons, if_neg (fun he => h.1 he.symm)]
      exact ih h.2

theorem dictGet_map_set (k : String) (v : Value) :
    ∀ d : Params, d.any (fun p => p.1 = k) = true →
      dictGet (d.map (fun p => if p.1 = k then (k, v) else p)) k = some v := by
  intro d
  induction d with
  | nil => intro h; simp at h
  | cons p d ih =>
      intro h
      rw [List.map_cons]
      by_cases hp : p.1 = k
      · simp only [if_pos hp]
        rw [dictGet_cons]
        simp
      · simp only [if_neg hp]
        rw [dictGet_cons, if_neg hp]
        apply ih
        simpa [hp] using h

theorem dictGet_map_set_ne (k : String) (v : Value) (k' : String)
    (hne : k ≠ k') :
    ∀ d : Params,
      dictGet (d.map (fun p => if p.1 = k then (k, v) else p)) k'
        = dictGet d k' := by
  intro d
  induction d with
  | nil => rfl
  | cons p d ih =>
      rw [List.map_cons]
      by_cases hp : p.1 = k
      · simp only [if_pos hp]
        rw [dictGet_cons, dictGet_cons, if_neg hne,
          if_neg (fun he : p.1 = k' => hne (hp.symm.trans he))]
        exact ih
      · simp only [if_neg hp]
        rw [dictGet_cons, dictGet_cons]
        by_cases hk' : p.1 = k'
        · rw [if_pos hk', if_pos hk']
        · rw [if_neg hk', if_neg hk']
          exact ih

theorem dictGet_append_singleton (k : String) (v : Value) :
    ∀ d : Params, (∀ p ∈ d, p.1 ≠ k) → dictGet (d ++ [(k, v)]) k = some v := by
  intro d
  induction d with
  | nil => intro _; rw [List.nil_append, dictGet_cons, if_pos rfl]
  | cons p d ih =>
      intro h
      rw [List.cons_append, dictGet_cons,
        if_neg (h p (List.mem_cons_self p d))]
      exact ih (fun q hq => h q (List.mem_cons_of_mem p hq))

theorem dictGet_append_singleton_ne (k : String) (v : Value) (k' : String)
    (hne : k ≠ k') :
    ∀ d : Params, dictGet (d ++ [(k, v)]) k' = dictGet d k' := by
  intro d
  induction d with
  | nil => rw [List.nil_append, dictGet_cons, if_neg hne]
  | cons p d ih =>
      rw [List.cons_append, dictGet_cons, dictGet_cons]
      by_cases hk' : p.1 = k'
      · rw [if_pos hk', if_pos hk']
      · rw [if_neg hk', if_neg hk']
        exact ih

theorem dictGet_dictSet_self (d : Params) (k : String) (v : Value) :
    dictGet (dictSet d k v) k = some v := by
  rw [dictSet]
  by_cases hany : d.any (fun p => p.1 = k) = true
  · rw [if_pos hany]
    exact dictGet_map_set k v d hany
  · rw [if_neg hany]
    apply dictGet_append_singleton
    intro p hp he
    exact hany (List.any_eq_true.mpr ⟨p, hp, by simpa using he⟩)

theorem dictGet_dictSet_ne (d : Params) (k : String) (v : Value)
    (k' : String) (hne : k ≠ k') :
    dictGet (dictSet d k v) k' = dictGet d k' := by
  rw [dictSet]
  by_cases hany : d.any (fun p => p.1 = k) = true
  · rw [if_pos hany]
    exact dictGet_map_set_ne k v k' hne d
  · rw [if_neg hany]
    exact dictGet_append_singleton_ne k v k' hne d

theorem dictGet_dictUpdate :
    ∀ kw : Params, (kw.map Prod.fst).Nodup →
      ∀ (d : Params) (k : String),
        dictGet (dictUpdate d kw) k = (dictGet kw k).or (dictGet d k) := by
  intro kw
  induction kw with
  | nil =>
      intro _ d k
      show dictGet d k = Option.or none (dictGet d k)
      simp
  | cons p kw ih =>
      intro hnd d k
      rw [List.map_cons, List.nodup_cons] at hnd
      have step : dictUpdate d (p :: kw) = dictUpdate (dictSet d p.1 p.2) kw := by
        rw [dictUpdate, List.foldl_cons]
        rfl
      rw [step, ih hnd.2, dictGet_cons]
      by_cases hk : p.1 = k
      · rw [if_pos hk]
        have hnone : dictGet kw k = none := by
          apply dictGet_eq_none_of_not_mem
          rw [← hk]
          exact hnd.1
        rw [hnone, ← hk, dictGet_dictSet_self]
        rfl
      · rw [if_neg hk, dictGet_dictSet_ne d p.1 p.2 k hk]

/-- C6 counterexample: for the Gemini adapter a caller option colliding
with an explicitly passed keyword (here max_output_tokens) makes the
config construction raise TypeError, so no vendor request carrying the
caller value is ever produced; the caller value does not win. -/
theorem gemini_kwargs_collision_cex :
    geminiPrepare "gemini-2.5-flash" [⟨Role.user, Content.str "hi"⟩] 1
      [("max_output_tokens", Value.nat 5)]
    = Except.error (AdapterError.typeError
        "TypeError: got multiple values for keyword argument") := by
  rfl

/-- C6 (amended): for the OpenAI-compatible, local and Anthropic adapters
the params sent to the vendor call are the base params updated with the
caller options, the caller value winning on any key collision (the lookup
of any key is the caller value when the key is among the options, else the
base value); for the Gemini adapter the options are merged into the
generation config, and an option key colliding with max_output_tokens or
system_instruction raises TypeError instead of letting the caller win. -/
theorem params_caller_override (model : String) (norm : List NTurn)
    (msgs : List Msg) (maxTok : Nat) (si : Option String) (kw : Params)
    (hnd : (kw.map Prod.fst).Nodup) :
    (∀ k, dictGet (openaiParams model norm maxTok kw) k
        = (dictGet kw k).or (dictGet (openaiBase model norm maxTok) k))
    ∧ (∀ k, dictGet (anthropicParams model msgs maxTok kw) k
        = (dictGet kw k).or (dictGet (anthropicBase model msgs maxTok) k))
    ∧ (kw.any (fun p => p.1 = "max_output_tokens" || p.1 = "system_instruction") = false →
        geminiConfig maxTok si kw = Except.ok (geminiConfigBase maxTok si ++ kw))
    ∧ (kw.any (fun p => p.1 = "max_output_tokens" || p.1 = "system_instruction") = true →
        geminiConfig maxTok si kw
          = Except.error "TypeError: got multiple values for keyword argument") := by
  refine ⟨fun k => dictGet_dictUpdate kw hnd _ k,
          fun k => dictGet_dictUpdate kw hnd _ k, ?_, ?_⟩
  · intro h
    rw [geminiConfig, if_neg (by rw [h]; exact Bool.false_ne_true)]
  · intro h
    rw [geminiConfig, if_pos h]

/-- C6 witness: a caller option max_tokens overrides the base max_tokens
of the OpenAI params. -/
theorem params_caller_override_witness :
    dictGet (openaiParams "gpt-4o" [] 7 [("max_tokens", Value.nat 5)])
      "max_tokens" = some (Value.nat 5) := by
  have h := (params_caller_override "gpt-4o" [] [] 7 none
    [("max_tokens", Value.nat 5)] (by simp)).1 "max_tokens"
  rw [h]
  rfl

theorem prepend_mem (pre : String) :
    ∀ (ts : List NTurn) (t : NTurn), t ∈ prependToFirstUser pre ts →
      t.role = Role.user ∨ t ∈ ts := by
  intro ts
  induction ts with
  | nil => intro t ht; simp [prependToFirstUser] at ht
  | cons h ts ih =>
      intro t ht
      rw [prependToFirstUser] at ht
      by_cases hu : h.role = Role.user
      · rw [if_pos hu] at ht
        rcases List.mem_cons.mp ht with he | hm
        · left; rw [he]
        · right; exact List.mem_cons_of_mem h hm
      · rw [if_neg hu] at ht
        rcases List.mem_cons.mp ht with he | hm
        · right; rw [he]; exact List.mem_cons_self h ts
        · rcases ih t hm with hl | hr
          · left; exact hl
          · right; exact List.mem_cons_of_mem h hr

theorem merge_mem (pre : String) (ts : List NTurn) (t : NTurn)
    (ht : t ∈ mergeSystemContent pre ts) : t.role = Role.user ∨ t ∈ ts := by
  rw [mergeSystemContent] at ht
  by_cases ha : ts.any isUserTurn = true
  · rw [if_pos ha] at ht
    exact prepend_mem pre ts t ht
  · rw [if_neg ha] at ht
    rcases List.mem_cons.mp ht with he | hm
    · left; rw [he]
    · right; exact hm

theorem merge_no_system (pre : String) (ts : List NTurn)
    (h : ∀ t ∈ ts, ¬ t.role = Role.system) :
    ∀ t ∈ mergeSystemContent pre ts, ¬ t.role = Role.system := by
  intro t ht
  rcases merge_mem pre ts t ht with hu | hm
  · rw [hu]
    intro hc
    exact Role.noConfusion hc
  · exact h t hm

theorem merge_recognized (pre : String) (ts : List NTurn)
    (h : ∀ t ∈ ts, recognized t = true) :
    ∀ t ∈ mergeSystemContent pre ts, recognized t = true := by
  intro t ht
  rcases merge_mem pre ts t ht with hu | hm
  · simp [recognized, hu]
  · exact h t hm

theorem prepend_find (pre : String) :
    ∀ ts : List NTurn, ts.any isUserTurn = true →
      ∃ r : String, (prependToFirstUser pre ts).find? isUserTurn
        = some ⟨Role.user, pre ++ r⟩ := by
  intro ts
  induction ts with
  | nil => intro h; simp at h
  | cons h ts ih =>
      intro hany
      rw [prependToFirstUser]
      by_cases hu : h.role = Role.user
      · rw [if_pos hu]
        refine ⟨"\n" ++ h.content, ?_⟩
        rw [List.find?_cons_of_pos _ (by simp [isUserTurn])]
        rw [String.append_assoc]
      · rw [if_neg hu]
        rw [List.find?_cons_of_neg _ (by simp [isUserTurn, hu])]
        apply ih
        simpa [isUserTurn, hu] using hany

theorem merge_find (pre : String) (ts : List NTurn) :
    ∃ r : String, (mergeSystemContent pre ts).find? isUserTurn
      = some ⟨Role.user, pre ++ r⟩ := by
  rw [mergeSystemContent]
  by_cases ha : ts.any isUserTurn = true
  · rw [if_pos ha]
    exact prepend_find pre ts ha
  · rw [if_neg ha]
    refine ⟨"", ?_⟩
    rw [List.find?_cons_of_pos _ (by simp [isUserTurn])]
    rw [String.append_empty]

/-- C8: with allowSystem false and mergeSystemIntoUser true, a conversation
containing a system turn normalizes so that the first user turn of the
result exists and its content starts with the concatenation, in original
order, of the system contents (the newline-joined sysJoin of the system
turns); and no system turn remains when keepSystem is false, while exactly
one remains when keepSystem is true. -/
theorem normalize_merge_system (msgs : List NTurn) (keep : Bool)
    (hsys : ∃ t ∈ msgs, t.role = Role.system) :
    (∃ r : String,
      (normalize_messages msgs false true keep).find? isUserTurn
        = some ⟨Role.user,
            sysJoin ((msgs.filter recognized).filter isSysTurn) ++ r⟩)
    ∧ ((normalize_messages msgs false true keep).filter isSysTurn).length
        = if keep then 1 else 0 := by
  obtain ⟨t, htm, htr⟩ := hsys
  have htts : t ∈ msgs.filter recognized :=
    List.mem_filter.mpr ⟨htm, by simp [recognized, htr]⟩
  have htsys : t ∈ (msgs.filter recognized).filter isSysTurn :=
    List.mem_filter.mpr ⟨htts, by simp [isSysTurn, htr]⟩
  have hne : ((msgs.filter recognized).filter isSysTurn).isEmpty = false := by
    cases hc : (msgs.filter recognized).filter isSysTurn with
    | nil => rw [hc] at htsys; simp at htsys
    | cons a l => simp [hc]
  have hrest : ∀ u ∈ (msgs.filter recognized).filter (fun t => !isSysTurn t),
      ¬ u.role = Role.system := by
    intro u hu
    have := List.of_mem_filter hu
    simpa [isSysTurn] using this
  have hmerge_nosys : ∀ u ∈ mergeSystemContent
      (sysJoin ((msgs.filter recognized).filter isSysTurn))
      ((msgs.filter recognized).filter (fun t => !isSysTurn t)),
      ¬ u.role = Role.system :=
    merge_no_system _ _ hrest
  have hfilter_nil : (mergeSystemContent
      (sysJoin ((msgs.filter recognized).filter isSysTurn))
      ((msgs.filter recognized).filter (fun t => !isSysTurn t))).filter
        isSysTurn = [] := by
    rw [List.filter_eq_nil_iff]
    intro u hu
    simpa [isSysTurn] using hmerge_nosys u hu
  cases keep with
  | false =>
      have hnorm : normalize_messages msgs false true false =
          mergeSystemContent
            (sysJoin ((msgs.filter recognized).filter isSysTurn))
            ((msgs.filter recognized).filter (fun t => !isSysTurn t)) := by
        rw [normalize_messages]
        simp only [Bool.false_eq_true, if_false, if_true, hne]
      constructor
      · rw [hnorm]
        exact merge_find _ _
      · rw [hnorm, hfilter_nil]
        rfl
  | true =>
      have hnorm : normalize_messages msgs false true true =
          { role := Role.system
            content := sysJoin ((msgs.filter recognized).filter isSysTurn) } ::
          mergeSystemContent
            (sysJoin ((msgs.filter recognized).filter isSysTurn))
            ((msgs.filter recognized).filter (fun t => !isSysTurn t)) := by
        rw [normalize_messages]
        simp only [Bool.false_eq_true, if_false, if_true, hne]
      constructor
      · rw [hnorm, List.find?_cons_of_neg _ (by simp [isUserTurn])]
        exact merge_find _ _
      · rw [hnorm, List.filter_cons_of_pos (by simp [isSysTurn]), hfilter_nil]
        rfl

/-- C8 witness: the spec scenario, system Be terse. then user Hi with
keepSystem false, leaves no system turn. -/
theorem normalize_merge_system_witness :
    ((normalize_messages [⟨Role.system, "Be terse."⟩, ⟨Role.user, "Hi"⟩]
        false true false).filter isSysTurn).length = 0 := by
  have h := (normalize_merge_system
    [⟨Role.system, "Be terse."⟩, ⟨Role.user, "Hi"⟩] false
    ⟨⟨Role.system, "Be terse."⟩, by simp, rfl⟩).2
  simpa using h

/-- C9 counterexample: with allowSystem false, mergeSystemIntoUser true and
keepSystem true, normalizing system S then user U once yields the retained
system turn plus user S newline U; normalizing that output again re-merges
the retained system content, yielding user S newline S newline U, a
different result. -/
theorem normalize_idempotent_cex :
    normalize_messages [⟨Role.system, "S"⟩, ⟨Role.user, "U"⟩] false true true
      = [⟨Role.system, "S"⟩, ⟨Role.user, "S" ++ "\n" ++ "U"⟩]
    ∧ normalize_messages
        (normalize_messages [⟨Role.system, "S"⟩, ⟨Role.user, "U"⟩] false true true)
        false true true
      = [⟨Role.system, "S"⟩, ⟨Role.user, "S" ++ "\n" ++ "S" ++ "\n" ++ "U"⟩]
    ∧ ([⟨Role.system, "S"⟩, ⟨Role.user, "S" ++ "\n" ++ "S" ++ "\n" ++ "U"⟩]
        ≠ [⟨Role.system, "S"⟩, (⟨Role.user, "S" ++ "\n" ++ "U"⟩ : NTurn)]) := by
  refine ⟨by decide, by decide, by decide⟩

theorem normalize_allow_true (l : List NTurn) (m k : Bool) :
    normalize_messages l true m k = l.filter recognized := rfl

theorem normalize_clean_elems (msgs : List NTurn) (merge keep : Bool)
    (hor : keep = false ∨ merge = false) :
    ∀ t ∈ normalize_messages msgs false merge keep,
      recognized t = true ∧ ¬ t.role = Role.system := by
  have hrest : ∀ u ∈ (msgs.filter recognized).filter (fun t => !isSysTurn t),
      recognized u = true ∧ ¬ u.role = Role.system := by
    intro u hu
    have h1 := List.of_mem_filter hu
    have h2 : u ∈ msgs.filter recognized := List.mem_of_mem_filter hu
    exact ⟨List.of_mem_filter h2, by simpa [isSysTurn] using h1⟩
  intro t ht
  rw [normalize_messages] at ht
  simp only [Bool.false_eq_true, if_false] at ht
  cases hm : merge with
  | false =>
      rw [hm] at ht
      simp only [Bool.false_eq_true, if_false] at ht
      exact hrest t ht
  | true =>
      rw [hm] at ht
      simp only [if_true] at ht
      by_cases hse : ((msgs.filter recognized).filter isSysTurn).isEmpty = true
      · rw [if_pos hse] at ht
        exact hrest t ht
      · rw [if_neg hse] at ht
        have hk : keep = false := by
          rcases hor with h | h
          · exact h
          · rw [h] at hm; exact absurd hm (by simp)
        rw [hk] at ht
        simp only [Bool.false_eq_true, if_false] at ht
        rcases merge_mem _ _ t ht with hu | hmm
        · exact ⟨by simp [recognized, hu], by rw [hu]; intro hc; exact Role.noConfusion hc⟩
        · exact hrest t hmm

theorem normalize_id_clean (l : List NTurn) (merge keep : Bool)
    (hrec : ∀ t ∈ l, recognized t = true)
    (hns : ∀ t ∈ l, ¬ t.role = Role.system) :
    normalize_messages l false merge keep = l := by
  have hts : l.filter recognized = l := List.filter_eq_self.mpr hrec
  have hsys : l.filter isSysTurn = [] :=
    List.filter_eq_nil_iff.mpr (fun t ht => by simpa [isSysTurn] using hns t ht)
  have hrest : l.filter (fun t => !isSysTurn t) = l :=
    List.filter_eq_self.mpr (fun t ht => by simpa [isSysTurn] using hns t ht)
  rw [normalize_messages]
  simp only [Bool.false_eq_true, if_false, hts, hsys, hrest]
  cases merge <;> simp

/-- C9 (amended): normalization is idempotent for every policy except the
combination allowSystem false, mergeSystemIntoUser true, keepSystem true:
whenever keepSystem is false, or allowSystem is true, or merge is off,
re-normalizing the output under the same policy returns it unchanged; with
the retained system turn of keepSystem true a second pass re-merges that
content (see the counterexample). -/
theorem normalize_idempotent (msgs : List NTurn) (allow merge keep : Bool)
    (h : keep = false ∨ allow = true ∨ merge = false) :
    normalize_messages (normalize_messages msgs allow merge keep) allow merge keep
      = normalize_messages msgs allow merge keep := by
  cases ha : allow with
  | true =>
      rw [normalize_allow_true, normalize_allow_true]
      exact List.filter_eq_self.mpr (fun t ht => List.of_mem_filter ht)
  | false =>
      have hor : keep = false ∨ merge = false := by
        rcases h with hh | hh | hh
        · exact Or.inl hh
        · rw [hh] at ha; exact absurd ha (by simp)
        · exact Or.inr hh
      have hclean := normalize_clean_elems msgs merge keep hor
      exact normalize_id_clean _ merge keep
        (fun t ht => (hclean t ht).1) (fun t ht => (hclean t ht).2)

/-- C9 witness: with keepSystem false the merge policy is idempotent on the
spec scenario input. -/
theorem normalize_idempotent_witness :
    normalize_messages
      (normalize_messages [⟨Role.system, "S"⟩, ⟨Role.user, "U"⟩] false true false)
      false true false
    = normalize_messages [⟨Role.system, "S"⟩, ⟨Role.user, "U"⟩] false true false :=
  normalize_idempotent [⟨Role.system, "S"⟩, ⟨Role.user, "U"⟩] false true false
    (Or.inl rfl)

end Adapters
